import Mathlib

/-!
Verification of the `safe` error-handling utilities: a shallow embedding of
the library's source (`normalizeError`, `calculateDelay`, `safeTimeout` and
the six operations produced by `createSafeUtils`) together with theorems
checking the specified contracts.

Modelling conventions:
* A JavaScript value that can be thrown is a `JSValue`; `Error` instances
  carry a message (`JSError`).
* A settled promise is a `JSPromise`: the time (ms) at which it settles and
  its outcome (`Except.ok` = resolved, `Except.error` = rejected).
* Each operation is embedded as a pure function returning its observable
  trace: the settlement of the promise it returns (an `Except`, so that a
  rejection of the returned promise itself is representable), the list of
  values passed to the configured logger, and — for the retrying operation —
  the number of invocations of `fn` and the waited delays.
* `Math.random` is modelled by an explicit parameter `rand` (one sample per
  call site), and numbers by `ℚ`.
-/

namespace SafeUtils

/-- Message-carrying error object (`Error` instances in the source). -/
structure JSError where
  message : String
  deriving Repr, DecidableEq

/-- A JavaScript value that may be thrown or stringified: `null`,
`undefined`, strings, (integer) numbers, booleans, plain objects, and
`Error` instances. -/
inductive JSValue where
  | vNull
  | vUndefined
  | vStr (s : String)
  | vNum (n : Int)
  | vBool (b : Bool)
  | vObj
  | vError (e : JSError)
  deriving Repr, DecidableEq

/-- `String(v)`: JavaScript default stringification of the modelled values. -/
def toJSString : JSValue → String
  | .vNull => "null"
  | .vUndefined => "undefined"
  | .vStr s => s
  | .vNum n => toString n
  | .vBool b => if b then "true" else "false"
  | .vObj => "[object Object]"
  | .vError e => "Error: " ++ e.message

/-- Whether a value is error-shaped (`error instanceof Error`). -/
def isErrorShaped : JSValue → Bool
  | .vError _ => true
  | _ => false

/-- `normalizeError` from `src/utils.ts`:
`error instanceof Error ? error : new Error(String(error))`. -/
def normalizeError (error : JSValue) : JSError :=
  match error with
  | .vError e => e
  | v => ⟨toJSString v⟩

/-- `RetryOptions` (plus the optional `timeoutMs` accepted by
`safeWithRetries`).  `retries` is an `Int` so that out-of-contract negative
values remain expressible; the optional fields are absent (`none`) when the
caller omits them. -/
structure RetryOptions where
  retries : Int
  initialDelayMs : Option ℚ := none
  jitter : Option Bool := none
  timeoutMs : Option ℚ := none

/-- `calculateDelay` from `src/utils.ts`.  `rand` is the sample that
`Math.random()` would return at this call. -/
def calculateDelay (rand : ℚ) (attempt : Nat) (options : RetryOptions) : ℚ :=
  let initialDelayMs := options.initialDelayMs.getD 100
  let jitter := options.jitter.getD false
  let baseDelay := initialDelayMs * 2 ^ attempt
  if jitter then rand * baseDelay else baseDelay

/-- A promise, abstracted to the time (ms after creation) at which it
settles and the outcome it settles with. -/
structure JSPromise (T : Type) where
  time : ℚ
  outcome : Except JSValue T

/-- The message of the timeout error manufactured by `safeTimeout`. -/
def timeoutMessage (ms : ℚ) : String :=
  "Timeout after " ++ toString ms ++ "ms"

/-- `safeTimeout` from `src/utils.ts`: race `promise` against a timer that
rejects with `Error(timeoutMessage ms)` after `ms` milliseconds.  Whichever
settles strictly first wins; on a tie the model lets the promise (listed
first in `Promise.race`) win. -/
def safeTimeout {T : Type} (promise : JSPromise T) (ms : ℚ) : JSPromise T :=
  if promise.time ≤ ms then promise
  else ⟨ms, .error (.vError ⟨timeoutMessage ms⟩)⟩

/-- The two-slot result `[Error | null, T | undefined]` (`SafeReturn<T>`). -/
structure SafeReturn (T : Type) where
  err : Option JSError
  val : Option T
  deriving Repr

/-- `safe` from `createSafeUtils`.  `fn` is the outcome of invoking the
callback (`.ok` = normal return, `.error` = thrown value); the result is the
returned pair wrapped in the settlement of the surrounding call (`.error`
would be `safe` itself throwing), paired with the values passed to the
logger. -/
def safe {T : Type} (enableLogErrors : Bool) (fn : Except JSValue T) :
    Except JSValue (SafeReturn T) × List JSError :=
  match fn with
  | .ok v => (.ok ⟨none, some v⟩, [])
  | .error error =>
    let normalizedError := normalizeError error
    (.ok ⟨some normalizedError, none⟩,
      if enableLogErrors then [normalizedError] else [])

/-- `safeAsync` from `createSafeUtils`.  `fn` is the promise returned by the
callback; the first component is the settlement of the promise `safeAsync`
returns. -/
def safeAsync {T : Type} (enableLogErrors : Bool) (fn : JSPromise T) :
    Except JSValue (SafeReturn T) × List JSError :=
  match fn.outcome with
  | .ok v => (.ok ⟨none, some v⟩, [])
  | .error error =>
    let normalizedError := normalizeError error
    (.ok ⟨some normalizedError, none⟩,
      if enableLogErrors then [normalizedError] else [])

/-- The per-item mapper inside `safeAll`: settle one promise into a
`SafeReturn`, logging on failure. -/
def settleItem {T : Type} (enableLogErrors : Bool) (promise : JSPromise T) :
    Except JSValue (SafeReturn T) × List JSError :=
  match promise.outcome with
  | .ok v => (.ok ⟨none, some v⟩, [])
  | .error error =>
    let normalizedError := normalizeError error
    (.ok ⟨some normalizedError, none⟩,
      if enableLogErrors then [normalizedError] else [])

/-- `Promise.all`: resolves with the list of resolutions, or rejects as soon
as some item rejects. -/
def promiseAll {α : Type} : List (Except JSValue α) → Except JSValue (List α)
  | [] => .ok []
  | x :: xs =>
    match x with
    | .error e => .error e
    | .ok a => (promiseAll xs).map (a :: ·)

/-- `safeAll` from `createSafeUtils`: map every input promise through
`settleItem` and `Promise.all` the mapped promises.  First component is the
settlement of the promise `safeAll` returns. -/
def safeAll {T : Type} (enableLogErrors : Bool) (promises : List (JSPromise T)) :
    Except JSValue (List (SafeReturn T)) × List JSError :=
  (promiseAll (promises.map (fun p => (settleItem enableLogErrors p).1)),
    (promises.map (fun p => (settleItem enableLogErrors p).2)).flatten)

/-- What the callback given to `safeObservable` does when invoked: throw
synchronously, return a plain (non-promise) value, or return a promise. -/
inductive ObsFn (T : Type) where
  | thrown (e : JSValue)
  | plain (v : T)
  | promise (p : JSPromise T)

/-- An event delivered to a stream subscriber; the error channel carries an
arbitrary value (always an `Error` instance in this library). -/
inductive ObsEvent (T : Type) where
  | next (v : T)
  | error (e : JSValue)
  | complete
  deriving Repr, DecidableEq

/-- The trace of one subscription to a stream: the events the subscriber
receives, the values passed to the logger, and how many times the
subscribed-to callback was invoked. -/
structure ObsTrace (T : Type) where
  events : List (ObsEvent T)
  logs : List JSError
  calls : Nat

/-- `safeObservable` from `createSafeUtils`: the trace of one subscription.
The subscribe procedure invokes `fn()` exactly once, hence `calls := 1` in
every branch. -/
def safeObservable {T : Type} (enableLogErrors : Bool) (fn : ObsFn T) :
    ObsTrace T :=
  match fn with
  | .thrown error =>
    let normalizedError := normalizeError error
    ⟨[.error (.vError normalizedError)],
      if enableLogErrors then [normalizedError] else [], 1⟩
  | .plain v => ⟨[.next v, .complete], [], 1⟩
  | .promise p =>
    match p.outcome with
    | .ok v => ⟨[.next v, .complete], [], 1⟩
    | .error error =>
      let normalizedError := normalizeError error
      ⟨[.error (.vError normalizedError)],
        if enableLogErrors then [normalizedError] else [], 1⟩

/-- The per-item `.then`/`.catch` mapper inside `safeObservableAll`; its
settlement and logs coincide with `settleItem`. -/
def settleObsItem {T : Type} (enableLogErrors : Bool) (promise : JSPromise T) :
    Except JSValue (SafeReturn T) × List JSError :=
  match promise.outcome with
  | .ok v => (.ok ⟨none, some v⟩, [])
  | .error error =>
    let normalizedError := normalizeError error
    (.ok ⟨some normalizedError, none⟩,
      if enableLogErrors then [normalizedError] else [])

/-- `safeObservableAll` from `createSafeUtils`: `from(Promise.all(...))` over
the per-item settle-all mapping.  The stream emits the settled list then
completes when the inner promise resolves, and error-terminates with the
rejection value when it rejects. -/
def safeObservableAll {T : Type} (enableLogErrors : Bool)
    (promises : List (JSPromise T)) :
    List (ObsEvent (List (SafeReturn T))) × List JSError :=
  let settled :=
    promiseAll (promises.map (fun p => (settleObsItem enableLogErrors p).1))
  ((match settled with
    | .ok results => [.next results, .complete]
    | .error e => [.error e]),
    (promises.map (fun p => (settleObsItem enableLogErrors p).2)).flatten)

/-- The trace of one call to `safeWithRetries`: the settlement of the
returned promise, the number of invocations of `fn`, the logger calls, and
the inter-attempt delays actually waited (in order). -/
structure RetryTrace (T : Type) where
  result : Except JSValue (SafeReturn T)
  calls : Nat
  logs : List JSError
  delays : List ℚ

/-- The settlement awaited by one attempt of `safeWithRetries`:
`options.timeoutMs ? safeTimeout(fn(), options.timeoutMs) : fn()` —
`fn attempt` is the promise returned by the attempt's invocation of `fn`,
and a present-but-zero `timeoutMs` is falsy, so it does not race. -/
def attemptSettle {T : Type} (options : RetryOptions) (fn : Nat → JSPromise T)
    (attempt : Nat) : Except JSValue T :=
  match options.timeoutMs with
  | some ms => if ms = 0 then (fn attempt).outcome
               else (safeTimeout (fn attempt) ms).outcome
  | none => (fn attempt).outcome

/-- The attempt loop of `safeWithRetries`, by recursion on the number of
loop iterations left (`remaining = options.retries + 1 - attempt`, clamped
at zero).  Each iteration invokes `fn` once; on failure it normalizes and
logs, and — when further iterations remain, i.e. `attempt < retries` —
waits `calculateDelay` before recursing. -/
def retryGo {T : Type} (enableLogErrors : Bool) (options : RetryOptions)
    (rand : Nat → ℚ) (fn : Nat → JSPromise T) (lastError : Option JSError) :
    (attempt : Nat) → (remaining : Nat) → RetryTrace T
  | _, 0 => ⟨.ok ⟨lastError, none⟩, 0, [], []⟩
  | attempt, r + 1 =>
    match attemptSettle options fn attempt with
    | .ok v => ⟨.ok ⟨none, some v⟩, 1, [], []⟩
    | .error error =>
      let normalizedError := normalizeError error
      let rest := retryGo enableLogErrors options rand fn
        (some normalizedError) (attempt + 1) r
      ⟨rest.result, 1 + rest.calls,
        (if enableLogErrors then [normalizedError] else []) ++ rest.logs,
        (if 0 < r then [calculateDelay (rand attempt) attempt options] else [])
          ++ rest.delays⟩

/-- `safeWithRetries` from `createSafeUtils`: run the attempt loop
`for (attempt = 0; attempt <= options.retries; attempt++)`, starting with
`normalizedError = null`. -/
def safeWithRetries {T : Type} (enableLogErrors : Bool) (options : RetryOptions)
    (rand : Nat → ℚ) (fn : Nat → JSPromise T) : RetryTrace T :=
  retryGo enableLogErrors options rand fn none 0 (options.retries + 1).toNat

/-! ## Helper definitions and lemmas -/

/-- The `SafeReturn` that settling one promise produces (`(null, value)` on
resolution, `(normalizeError e, undefined)` on rejection). -/
def settleResult {T : Type} (promise : JSPromise T) : SafeReturn T :=
  match promise.outcome with
  | .ok v => ⟨none, some v⟩
  | .error e => ⟨some (normalizeError e), none⟩

/-- Exactly one slot of a `SafeReturn` is meaningful. -/
def ExactlyOneSlot {T : Type} (r : SafeReturn T) : Prop :=
  (∃ v, r = ⟨none, some v⟩) ∨ (∃ e, r = ⟨some e, none⟩)

theorem settleItem_fst {T : Type} (L : Bool) (p : JSPromise T) :
    (settleItem L p).1 = .ok (settleResult p) := by
  unfold settleItem settleResult
  cases p.outcome <;> rfl

theorem settleObsItem_fst {T : Type} (L : Bool) (p : JSPromise T) :
    (settleObsItem L p).1 = .ok (settleResult p) := by
  unfold settleObsItem settleResult
  cases p.outcome <;> rfl

theorem settleResult_oneSlot {T : Type} (p : JSPromise T) :
    ExactlyOneSlot (settleResult p) := by
  unfold settleResult ExactlyOneSlot
  cases p.outcome with
  | ok v => exact Or.inl ⟨v, rfl⟩
  | error e => exact Or.inr ⟨normalizeError e, rfl⟩

theorem promiseAll_map_ok {α : Type} (xs : List α) :
    promiseAll (xs.map Except.ok) = .ok xs := by
  induction xs with
  | nil => rfl
  | cons x xs ih => simp [promiseAll, ih, Except.map]

theorem safeAll_fst {T : Type} (L : Bool) (ps : List (JSPromise T)) :
    (safeAll L ps).1 = .ok (ps.map settleResult) := by
  unfold safeAll
  have h : ps.map (fun p => (settleItem L p).1)
      = (ps.map settleResult).map Except.ok := by
    rw [List.map_map]
    exact List.map_congr_left fun p _ => settleItem_fst L p
  rw [h, promiseAll_map_ok]

theorem safeObservableAll_events {T : Type} (L : Bool) (ps : List (JSPromise T)) :
    (safeObservableAll L ps).1 = [.next (ps.map settleResult), .complete] := by
  unfold safeObservableAll
  have h : ps.map (fun p => (settleObsItem L p).1)
      = (ps.map settleResult).map Except.ok := by
    rw [List.map_map]
    exact List.map_congr_left fun p _ => settleObsItem_fst L p
  simp only [h, promiseAll_map_ok]

theorem retryGo_result_ok {T : Type} (L : Bool) (options : RetryOptions)
    (rand : Nat → ℚ) (fn : Nat → JSPromise T) :
    ∀ (r a : Nat) (le : Option JSError),
      ∃ res, (retryGo L options rand fn le a r).result = .ok res := by
  intro r
  induction r with
  | zero => exact fun a le => ⟨⟨le, none⟩, rfl⟩
  | succ r ih =>
    intro a le
    unfold retryGo
    cases h : attemptSettle options fn a with
    | ok v => exact ⟨⟨none, some v⟩, rfl⟩
    | error e => simpa using ih (a + 1) (some (normalizeError e))

theorem retryGo_result_oneSlot {T : Type} (L : Bool) (options : RetryOptions)
    (rand : Nat → ℚ) (fn : Nat → JSPromise T) :
    ∀ (r a : Nat) (le : Option JSError), (0 < r ∨ le.isSome) →
      ∃ res, (retryGo L options rand fn le a r).result = .ok res ∧
        ExactlyOneSlot res := by
  intro r
  induction r with
  | zero =>
    intro a le hle
    rcases hle with h | h
    · omega
    · rcases Option.isSome_iff_exists.mp h with ⟨e, rfl⟩
      exact ⟨⟨some e, none⟩, rfl, Or.inr ⟨e, rfl⟩⟩
  | succ r ih =>
    intro a le _
    unfold retryGo
    cases h : attemptSettle options fn a with
    | ok v => exact ⟨⟨none, some v⟩, rfl, Or.inl ⟨v, rfl⟩⟩
    | error e =>
      simpa using ih (a + 1) (some (normalizeError e)) (Or.inr rfl)

theorem retryGo_allFail {T : Type} (L : Bool) (options : RetryOptions)
    (rand : Nat → ℚ) (fn : Nat → JSPromise T) :
    ∀ (r a : Nat) (le : Option JSError),
      (∀ i, i < r → ∃ e, attemptSettle options fn (a + i) = .error e) →
      (retryGo L options rand fn le a r).calls = r ∧
      (retryGo L options rand fn le a r).delays =
        (List.range' a (r - 1)).map
          (fun j => calculateDelay (rand j) j options) ∧
      (r = 0 → (retryGo L options rand fn le a r).result = .ok ⟨le, none⟩) ∧
      (0 < r → ∃ e, attemptSettle options fn (a + r - 1) = .error e ∧
        (retryGo L options rand fn le a r).result =
          .ok ⟨some (normalizeError e), none⟩) := by
  intro r
  induction r with
  | zero =>
    intro a le _
    exact ⟨rfl, rfl, fun _ => rfl, fun h => absurd h (by omega)⟩
  | succ r ih =>
    intro a le hfail
    obtain ⟨e0, he0⟩ := hfail 0 (by omega)
    rw [Nat.add_zero] at he0
    have ihr := ih (a + 1) (some (normalizeError e0))
      (fun i hi => by
        have := hfail (i + 1) (by omega)
        rwa [show a + (i + 1) = a + 1 + i by omega] at this)
    unfold retryGo
    rw [he0]
    simp only
    refine ⟨by rw [ihr.1]; omega, ?_, fun h => absurd h (by omega),
      fun _ => ?_⟩
    · rcases Nat.eq_zero_or_pos r with hr | hr
      · subst hr
        simp [ihr.2.1]
      · obtain ⟨r', rfl⟩ : ∃ n, r = n + 1 := ⟨r - 1, by omega⟩
        rw [ihr.2.1]
        simp only [Nat.add_sub_cancel, if_pos (by omega : 0 < r' + 1)]
        rw [List.range'_succ]
        simp
    · rcases Nat.eq_zero_or_pos r with hr | hr
      · subst hr
        refine ⟨e0, by simpa using he0, ?_⟩
        rw [ihr.2.2.1 rfl]
      · obtain ⟨e, he, hres⟩ := ihr.2.2.2 hr
        refine ⟨e, ?_, by rw [hres]⟩
        rwa [show a + (r + 1) - 1 = a + 1 + r - 1 by omega]

theorem retryGo_success {T : Type} (L : Bool) (options : RetryOptions)
    (rand : Nat → ℚ) (fn : Nat → JSPromise T) :
    ∀ (k r a : Nat) (le : Option JSError) (v : T), k < r →
      (∀ i, i < k → ∃ e, attemptSettle options fn (a + i) = .error e) →
      attemptSettle options fn (a + k) = .ok v →
      (retryGo L options rand fn le a r).result = .ok ⟨none, some v⟩ ∧
      (retryGo L options rand fn le a r).calls = k + 1 ∧
      (retryGo L options rand fn le a r).delays =
        (List.range' a k).map (fun j => calculateDelay (rand j) j options) := by
  intro k
  induction k with
  | zero =>
    intro r a le v hk _ hok
    obtain ⟨r', rfl⟩ : ∃ n, r = n + 1 := ⟨r - 1, by omega⟩
    rw [Nat.add_zero] at hok
    unfold retryGo
    rw [hok]
    exact ⟨rfl, rfl, rfl⟩
  | succ k ih =>
    intro r a le v hk hfail hok
    obtain ⟨r', rfl⟩ : ∃ n, r = n + 1 := ⟨r - 1, by omega⟩
    obtain ⟨e0, he0⟩ := hfail 0 (by omega)
    rw [Nat.add_zero] at he0
    have ihr := ih r' (a + 1) (some (normalizeError e0)) v (by omega)
      (fun i hi => by
        have := hfail (i + 1) (by omega)
        rwa [show a + (i + 1) = a + 1 + i by omega] at this)
      (by rwa [show a + 1 + k = a + (k + 1) by omega])
    unfold retryGo
    rw [he0]
    simp only
    refine ⟨by rw [ihr.1], by rw [ihr.2.1]; omega, ?_⟩
    rw [ihr.2.2, if_pos (by omega : 0 < r'), List.range'_succ]
    simp

/-! ## Claims -/

/-- C2: `normalizeError` passes error-shaped values through unchanged (the
very same value, not a clone), and otherwise builds a new error whose
message is `String(v)` — `"null"` for `null`, `"undefined"` for
`undefined`, `"[object Object]"` for plain objects.  Being a total
function, it is defined on every input and never itself fails. -/
theorem normalizeError_spec :
    (∀ e : JSError, normalizeError (.vError e) = e) ∧
    (∀ v : JSValue, isErrorShaped v = false →
      (normalizeError v).message = toJSString v) ∧
    toJSString .vNull = "null" ∧
    toJSString .vUndefined = "undefined" ∧
    toJSString .vObj = "[object Object]" := by
  refine ⟨fun e => rfl, fun v hv => ?_, rfl, rfl, rfl⟩
  cases v <;> first | rfl | exact absurd hv (by simp [isErrorShaped])

theorem normalizeError_spec_witness :
    isErrorShaped .vNull = false ∧
    (normalizeError .vNull).message = toJSString .vNull :=
  ⟨rfl, normalizeError_spec.2.1 .vNull rfl⟩

/-- C3: when `fn` returns normally, `safe` returns `(null, fn())` and the
logger is never invoked; when `fn` throws `e`, `safe` returns
`(normalizeError e, undefined)` and the logger is invoked exactly once
with `normalizeError e` when error logging is enabled (and not at all
otherwise). -/
theorem safe_spec {T : Type} (enableLogErrors : Bool) (v : T) (e : JSValue) :
    safe enableLogErrors (.ok v) =
      (.ok ⟨none, some v⟩, ([] : List JSError)) ∧
    safe enableLogErrors (.error e : Except JSValue T) =
      (.ok ⟨some (normalizeError e), none⟩,
        if enableLogErrors then [normalizeError e] else []) :=
  ⟨rfl, rfl⟩

/-- C10: calling `safeWithRetries` with a strictly negative `retries`
skips the attempt loop entirely: `fn` is never invoked, nothing is logged,
no delay is waited, and the returned promise resolves to the pair
`(null, undefined)`. -/
theorem safeWithRetries_negative_retries {T : Type} (enableLogErrors : Bool)
    (options : RetryOptions) (rand : Nat → ℚ) (fn : Nat → JSPromise T)
    (h : options.retries < 0) :
    safeWithRetries enableLogErrors options rand fn =
      ⟨.ok ⟨none, none⟩, 0, [], []⟩ := by
  unfold safeWithRetries
  rw [show (options.retries + 1).toNat = 0 by omega]
  rfl

theorem safeWithRetries_negative_retries_witness :
    (-1 : Int) < 0 ∧
    safeWithRetries true ⟨-1, none, none, none⟩ (fun _ => 0)
        (fun _ => (⟨0, .ok 7⟩ : JSPromise Nat)) =
      ⟨.ok ⟨none, none⟩, 0, [], []⟩ :=
  ⟨by decide,
    safeWithRetries_negative_retries true ⟨-1, none, none, none⟩ (fun _ => 0)
      (fun _ => ⟨0, .ok 7⟩) (by decide)⟩

/-- C5: `calculateDelay attempt options` equals
`initialDelayMs * 2 ^ attempt` exactly when jitter is off, and lies in
`[0, initialDelayMs * 2 ^ attempt)` when jitter is on (given that
`Math.random()` samples lie in `[0, 1)` and `initialDelayMs` is positive,
as `RetryOptions` requires); an absent `initialDelayMs` defaults to `100`
and an absent `jitter` defaults to `false`. -/
theorem calculateDelay_spec (rand : ℚ) (attempt : Nat)
    (options : RetryOptions) (hr0 : 0 ≤ rand) (hr1 : rand < 1)
    (hpos : 0 < options.initialDelayMs.getD 100) :
    (options.jitter.getD false = false →
      calculateDelay rand attempt options =
        options.initialDelayMs.getD 100 * 2 ^ attempt) ∧
    (options.jitter.getD false = true →
      0 ≤ calculateDelay rand attempt options ∧
      calculateDelay rand attempt options <
        options.initialDelayMs.getD 100 * 2 ^ attempt) ∧
    (options.initialDelayMs = none → options.jitter = none →
      calculateDelay rand attempt options = 100 * 2 ^ attempt) := by
  have hbase : (0 : ℚ) < options.initialDelayMs.getD 100 * 2 ^ attempt :=
    mul_pos hpos (by positivity)
  refine ⟨fun hj => ?_, fun hj => ?_, fun hd hj => ?_⟩
  · simp [calculateDelay, hj]
  · constructor
    · simp only [calculateDelay, hj, if_true]
      exact mul_nonneg hr0 (le_of_lt hbase)
    · simp only [calculateDelay, hj, if_true]
      calc rand * (options.initialDelayMs.getD 100 * 2 ^ attempt)
          < 1 * (options.initialDelayMs.getD 100 * 2 ^ attempt) := by
            exact mul_lt_mul_of_pos_right hr1 hbase
        _ = options.initialDelayMs.getD 100 * 2 ^ attempt := one_mul _
  · simp [calculateDelay, hd, hj]

theorem calculateDelay_spec_witness :
    (0 : ℚ) ≤ 1 / 2 ∧ (1 / 2 : ℚ) < 1 ∧
    (0 : ℚ) < (Option.getD (RetryOptions.initialDelayMs ⟨2, none, none, none⟩) 100) ∧
    calculateDelay (1 / 2) 3 ⟨2, none, none, none⟩ = 100 * 2 ^ 3 :=
  ⟨by norm_num, by norm_num, by norm_num [Option.getD],
    (calculateDelay_spec (1 / 2) 3 ⟨2, none, none, none⟩ (by norm_num)
      (by norm_num) (by norm_num [Option.getD])).2.2 rfl rfl⟩

/-- C6: the promise returned by `safeTimeout pending ms` settles with
`pending`'s own outcome whenever `pending` settles before the `ms`
timer, and rejects with an error whose message is exactly
`Timeout after {ms}ms` (with `ms` interpolated) whenever the timer
elapses first; the losing side is not aborted — its outcome is simply
discarded from the raced result. -/
theorem safeTimeout_spec {T : Type} (promise : JSPromise T) (ms : ℚ) :
    (promise.time < ms → safeTimeout promise ms = promise) ∧
    (ms < promise.time →
      safeTimeout promise ms =
        ⟨ms, .error (.vError ⟨timeoutMessage ms⟩)⟩ ∧
      timeoutMessage ms = "Timeout after " ++ toString ms ++ "ms") := by
  constructor
  · intro h
    unfold safeTimeout
    rw [if_pos (le_of_lt h)]
  · intro h
    refine ⟨?_, rfl⟩
    unfold safeTimeout
    rw [if_neg (not_le.mpr h)]

theorem safeTimeout_spec_witness :
    safeTimeout (⟨5, .ok 42⟩ : JSPromise Nat) 1000 = ⟨5, .ok 42⟩ ∧
    safeTimeout (⟨2000, .ok 42⟩ : JSPromise Nat) 1000 =
      ⟨1000, .error (.vError ⟨"Timeout after 1000ms"⟩)⟩ :=
  ⟨(safeTimeout_spec ⟨5, .ok 42⟩ 1000).1 (by norm_num),
    by
      have h := ((safeTimeout_spec (⟨2000, .ok 42⟩ : JSPromise Nat) 1000).2
        (by norm_num)).1
      rw [h]
      rfl⟩

/-- C9: one subscription to `safeObservable fn` invokes `fn` exactly once
(`calls = 1` in every branch); a synchronous throw error-terminates the
stream with the normalized error and emits nothing, a plain return value
is emitted once followed by completion, a returned promise is awaited —
its resolution is emitted once followed by completion, its rejection
error-terminates the stream with the normalized error. -/
theorem safeObservable_spec {T : Type} (enableLogErrors : Bool) (e : JSValue)
    (v : T) (t u : ℚ) :
    safeObservable enableLogErrors (.thrown e : ObsFn T) =
      ⟨[.error (.vError (normalizeError e))],
        if enableLogErrors then [normalizeError e] else [], 1⟩ ∧
    safeObservable enableLogErrors (.plain v) =
      ⟨[.next v, .complete], [], 1⟩ ∧
    safeObservable enableLogErrors (.promise ⟨t, .ok v⟩) =
      ⟨[.next v, .complete], [], 1⟩ ∧
    safeObservable enableLogErrors (.promise ⟨u, .error e⟩ : ObsFn T) =
      ⟨[.error (.vError (normalizeError e))],
        if enableLogErrors then [normalizeError e] else [], 1⟩ :=
  ⟨rfl, rfl, rfl, rfl⟩

/-- C4: `safeAll` resolves with a list of exactly the input's length whose
`i`-th entry is the Result of the `i`-th input promise — `(null, value)`
for a resolution, `(normalizeError e, undefined)` for a rejection — the
`i`-th output being determined by the `i`-th input alone (order preserved,
settle-all: no item's failure cancels or alters another item's Result, and
settle times play no role). -/
theorem safeAll_spec {T : Type} (enableLogErrors : Bool)
    (promises : List (JSPromise T)) :
    (∀ (t : ℚ) (v : T), settleResult ⟨t, .ok v⟩ = ⟨none, some v⟩) ∧
    (∀ (t : ℚ) (e : JSValue),
      settleResult (⟨t, .error e⟩ : JSPromise T) =
        ⟨some (normalizeError e), none⟩) ∧
    ∃ results : List (SafeReturn T),
      (safeAll enableLogErrors promises).1 = .ok results ∧
      results.length = promises.length ∧
      ∀ i : Nat, results[i]? = (promises[i]?).map settleResult := by
  refine ⟨fun t v => rfl, fun t e => rfl,
    promises.map settleResult, safeAll_fst _ _, by simp, fun i => ?_⟩
  simp

/-- C1: with a non-negative `retries`, if every attempt of
`safeWithRetries fn options` fails then `fn` is invoked exactly
`retries + 1` times, the returned promise resolves to
`(normalizeError lastError, undefined)`, and the waits between attempts
are exactly `calculateDelay attempt options` for each failed attempt index
`attempt < retries`; if the first success occurs at attempt `k`, the
promise resolves to `(null, value)` immediately — `k + 1` invocations,
and only the delays for the failed attempts before `k`. -/
theorem safeWithRetries_spec {T : Type} (enableLogErrors : Bool)
    (options : RetryOptions) (rand : Nat → ℚ) (fn : Nat → JSPromise T)
    (hret : 0 ≤ options.retries) :
    ((∀ n, n ≤ options.retries.toNat →
        ∃ e, attemptSettle options fn n = .error e) →
      (safeWithRetries enableLogErrors options rand fn).calls =
        options.retries.toNat + 1 ∧
      (∃ e, attemptSettle options fn options.retries.toNat = .error e ∧
        (safeWithRetries enableLogErrors options rand fn).result =
          .ok ⟨some (normalizeError e), none⟩) ∧
      (safeWithRetries enableLogErrors options rand fn).delays =
        (List.range options.retries.toNat).map
          (fun j => calculateDelay (rand j) j options)) ∧
    (∀ (k : Nat) (v : T), k ≤ options.retries.toNat →
      (∀ i, i < k → ∃ e, attemptSettle options fn i = .error e) →
      attemptSettle options fn k = .ok v →
      (safeWithRetries enableLogErrors options rand fn).result =
        .ok ⟨none, some v⟩ ∧
      (safeWithRetries enableLogErrors options rand fn).calls = k + 1 ∧
      (safeWithRetries enableLogErrors options rand fn).delays =
        (List.range k).map (fun j => calculateDelay (rand j) j options)) := by
  have htn : (options.retries + 1).toNat = options.retries.toNat + 1 := by
    omega
  constructor
  · intro hall
    have h := retryGo_allFail enableLogErrors options rand fn
      (options.retries.toNat + 1) 0 none
      (fun i hi => by simpa using hall i (by omega))
    unfold safeWithRetries
    rw [htn]
    refine ⟨h.1, ?_, ?_⟩
    · obtain ⟨e, he, hres⟩ := h.2.2.2 (by omega)
      exact ⟨e, by simpa using he, hres⟩
    · rw [h.2.1]
      simp [List.range_eq_range']
  · intro k v hk hfail hok
    have h := retryGo_success enableLogErrors options rand fn k
      (options.retries.toNat + 1) 0 none v (by omega)
      (fun i hi => by simpa using hfail i hi)
      (by simpa using hok)
    unfold safeWithRetries
    rw [htn]
    exact ⟨h.1, h.2.1, by rw [h.2.2]; simp [List.range_eq_range']⟩

theorem safeWithRetries_spec_witness :
    (0 : Int) ≤ 2 ∧
    (safeWithRetries true ⟨2, none, none, none⟩ (fun _ => 0)
      (fun _ => (⟨0, .error (.vStr "boom")⟩ : JSPromise Nat))).calls = 3 :=
  ⟨by decide,
    ((safeWithRetries_spec true ⟨2, none, none, none⟩ (fun _ => 0)
        (fun _ => (⟨0, .error (.vStr "boom")⟩ : JSPromise Nat))
        (by decide)).1
      (fun n _ => ⟨.vStr "boom", rfl⟩)).1⟩

/-- C7: the promises returned by `safeAsync`, `safeAll` and
`safeWithRetries` always resolve (never reject), `safe` never throws, and
`safeObservableAll` never error-terminates: every failure travels as data
inside the resolved Result.  `safeObservable` alone surfaces failure on
the stream's error-termination channel, both for a synchronous throw and
for a rejected returned promise. -/
theorem failure_never_escapes {T : Type} (enableLogErrors : Bool)
    (fnS : Except JSValue T) (fnA : JSPromise T) (ps : List (JSPromise T))
    (options : RetryOptions) (rand : Nat → ℚ) (fnR : Nat → JSPromise T) :
    (∃ r, (safe enableLogErrors fnS).1 = .ok r) ∧
    (∃ r, (safeAsync enableLogErrors fnA).1 = .ok r) ∧
    (∃ rs, (safeAll enableLogErrors ps).1 = .ok rs) ∧
    (∃ r, (safeWithRetries enableLogErrors options rand fnR).result =
      .ok r) ∧
    (∃ rs, (safeObservableAll enableLogErrors ps).1 =
      [.next rs, .complete]) ∧
    (∀ e, (safeObservable enableLogErrors (.thrown e : ObsFn T)).events =
      [.error (.vError (normalizeError e))]) ∧
    (∀ (t : ℚ) (e : JSValue),
      (safeObservable enableLogErrors
        (.promise ⟨t, .error e⟩ : ObsFn T)).events =
          [.error (.vError (normalizeError e))]) := by
  refine ⟨?_, ?_, ⟨_, safeAll_fst _ _⟩,
    retryGo_result_ok enableLogErrors options rand fnR
      (options.retries + 1).toNat 0 none,
    ⟨_, safeObservableAll_events _ _⟩, fun e => rfl, fun t e => rfl⟩
  · cases fnS with
    | ok v => exact ⟨_, rfl⟩
    | error e => exact ⟨_, rfl⟩
  · unfold safeAsync
    cases fnA.outcome with
    | ok v => exact ⟨_, rfl⟩
    | error e => exact ⟨_, rfl⟩

/-- C8: every Result any operation produces (for inputs meeting the
`RetryOptions` contract) has exactly one meaningful slot: either the error
slot is `null` and the value slot holds the output, or the error slot
holds a normalized error and the value slot is absent — never both
populated, never both empty.  This covers `safe`, `safeAsync`, every
element of `safeAll`'s list, every element of the list
`safeObservableAll` emits, and `safeWithRetries`. -/
theorem result_exactly_one_slot {T : Type} (enableLogErrors : Bool)
    (fnS : Except JSValue T) (fnA : JSPromise T) (ps : List (JSPromise T))
    (options : RetryOptions) (rand : Nat → ℚ) (fnR : Nat → JSPromise T)
    (hret : 0 ≤ options.retries) :
    (∀ r, (safe enableLogErrors fnS).1 = .ok r → ExactlyOneSlot r) ∧
    (∀ r, (safeAsync enableLogErrors fnA).1 = .ok r → ExactlyOneSlot r) ∧
    (∀ rs, (safeAll enableLogErrors ps).1 = .ok rs →
      ∀ r ∈ rs, ExactlyOneSlot r) ∧
    (∀ rs, ObsEvent.next rs ∈ (safeObservableAll enableLogErrors ps).1 →
      ∀ r ∈ rs, ExactlyOneSlot r) ∧
    (∀ r, (safeWithRetries enableLogErrors options rand fnR).result =
      .ok r → ExactlyOneSlot r) := by
  refine ⟨?_, ?_, ?_, ?_, ?_⟩
  · intro r h
    cases fnS with
    | ok v =>
      simp only [safe, Except.ok.injEq] at h
      exact h ▸ Or.inl ⟨v, rfl⟩
    | error e =>
      simp only [safe, Except.ok.injEq] at h
      exact h ▸ Or.inr ⟨normalizeError e, rfl⟩
  · intro r h
    unfold safeAsync at h
    cases he : fnA.outcome with
    | ok v =>
      rw [he] at h
      simp only [Except.ok.injEq] at h
      exact h ▸ Or.inl ⟨v, rfl⟩
    | error e =>
      rw [he] at h
      simp only [Except.ok.injEq] at h
      exact h ▸ Or.inr ⟨normalizeError e, rfl⟩
  · intro rs h r hr
    rw [safeAll_fst] at h
    simp only [Except.ok.injEq] at h
    subst h
    obtain ⟨p, _, rfl⟩ := List.mem_map.mp hr
    exact settleResult_oneSlot p
  · intro rs h r hr
    rw [safeObservableAll_events] at h
    simp only [List.mem_cons, List.mem_singleton] at h
    rcases h with h | h | h
    · obtain ⟨p, _, rfl⟩ := List.mem_map.mp
        ((ObsEvent.next.injEq _ _ ▸ congrArg id h) ▸ hr)
      exact settleResult_oneSlot p
    · exact absurd h (by simp)
    · exact absurd h (by simp)
  · intro r h
    obtain ⟨res, hres, hone⟩ := retryGo_result_oneSlot enableLogErrors
      options rand fnR (options.retries + 1).toNat 0 none
      (Or.inl (by omega))
    have : (safeWithRetries enableLogErrors options rand fnR).result =
        .ok res := hres
    rw [this] at h
    simp only [Except.ok.injEq] at h
    exact h ▸ hone

theorem result_exactly_one_slot_witness :
    (0 : Int) ≤ 0 ∧
    ExactlyOneSlot (⟨none, some 5⟩ : SafeReturn Nat) :=
  ⟨by decide,
    (result_exactly_one_slot true (.ok 5) ⟨0, .ok 0⟩ []
        ⟨0, none, none, none⟩ (fun _ => 0) (fun _ => ⟨0, .ok 0⟩)
        (by decide)).1
      ⟨none, some 5⟩ rfl⟩

end SafeUtils
